import Mathlib

/-!
Verification of the buildfunctions SDK file-transfer core.

This file gives a shallow embedding of the chunked multipart upload
pipeline (src/cli.ts: uploadPart, uploadMultipartFile, uploadFile,
getFilesInDirectory, uploadModelFiles) and of the DNS-bypassing endpoint
readiness prober (src/sandbox/cpu-sandbox.ts: resolveWithAWS,
waitForEndpoint), and proves the specification claims about them.

Network and filesystem effects are abstracted as explicit inputs:
an HTTP response environment for part uploads, an outcome environment
for probe attempts, a DNS answer for the resolver, and an inductive
tree for the directory walker.  JavaScript loops are embedded as
structurally recursive functions (a fuel parameter bounds loops whose
counter is not structurally decreasing; every theorem carries the fuel
bound actually used by the code's entry point, where the bound always
holds).  Out-of-order completion of concurrent part uploads inside a
batch is modelled by an arbitrary reordering function applied to each
batch, constrained to be a permutation in the theorems.
-/

/-! ## Chunk partitioning (src/cli.ts lines 31, 117-123)

const CHUNK_SIZE = 9 * 1024 * 1024 and the byte-range computation
start = j * CHUNK_SIZE, end = min(start + CHUNK_SIZE, content.length),
chunk = content.slice(start, end).
-/

/-- CHUNK_SIZE = 9 * 1024 * 1024 (src/cli.ts line 31). -/
def CHUNK_SIZE : Nat := 9 * 1024 * 1024

/-- maxParallelUploads = 5 (src/cli.ts line 116). -/
def maxParallelUploads : Nat := 5

/-- Buffer.slice(start, stop): the elements of indices [start, stop);
empty when start ≥ stop, clamped to the buffer length. -/
def bufSlice {α : Type} (content : List α) (start stop : Nat) : List α :=
  (content.take stop).drop start

/-- The byte range of 0-based part j:
content.slice(j * CHUNK_SIZE, min(j * CHUNK_SIZE + CHUNK_SIZE, content.length))
(src/cli.ts lines 121-123). -/
def partChunk {α : Type} (content : List α) (j : Nat) : List α :=
  bufSlice content (j * CHUNK_SIZE) (min (j * CHUNK_SIZE + CHUNK_SIZE) content.length)

/-- The outer batching loop of uploadMultipartFile (src/cli.ts lines 117-119):
for (i = 0; i < numberOfParts; i += maxParallelUploads) collect the inner
indices j with i ≤ j < min(i + maxParallelUploads, numberOfParts).
The fuel argument only bounds the iteration count; the entry point
uploadBatches passes fuel = numberOfParts, which is never exhausted. -/
def batchesFrom : Nat → Nat → Nat → List (List Nat)
  | 0, _, _ => []
  | fuel + 1, i, numberOfParts =>
    if i < numberOfParts then
      List.range' i (min (i + maxParallelUploads) numberOfParts - i)
        :: batchesFrom fuel (i + maxParallelUploads) numberOfParts
    else []

/-- The list of batches of 0-based part indices processed by
uploadMultipartFile for a given numberOfParts. -/
def uploadBatches (numberOfParts : Nat) : List (List Nat) :=
  batchesFrom numberOfParts 0 numberOfParts

/-- The PUT bodies issued by uploadMultipartFile, in issue order:
for each index j produced by the batching loop, the chunk
content.slice(j * CHUNK_SIZE, min(j * CHUNK_SIZE + CHUNK_SIZE, content.length)). -/
def uploadedBodies {α : Type} (content : List α) (numberOfParts : Nat) : List (List α) :=
  ((uploadBatches numberOfParts).flatten).map (partChunk content)

theorem batchesFrom_flatten (fuel : Nat) : ∀ i n : Nat, n ≤ i + maxParallelUploads * fuel →
    (batchesFrom fuel i n).flatten = List.range' i (n - i) := by
  induction fuel with
  | zero =>
    intro i n h
    simp only [maxParallelUploads, Nat.mul_zero, Nat.add_zero] at h
    have hni : n - i = 0 := by omega
    simp [batchesFrom, hni]
  | succ fuel ih =>
    intro i n h
    rw [batchesFrom]
    by_cases hin : i < n
    · rw [if_pos hin, List.flatten_cons,
        ih (i + maxParallelUploads) n (by simp only [maxParallelUploads] at h ⊢; omega)]
      by_cases h5 : i + maxParallelUploads ≤ n
      · have hm : min (i + maxParallelUploads) n - i = maxParallelUploads := by omega
        rw [hm]
        have happ := List.range'_append i maxParallelUploads (n - (i + maxParallelUploads)) 1
        simp only [Nat.one_mul] at happ
        rw [happ]
        congr 1
        omega
      · have hz : n - (i + maxParallelUploads) = 0 := by omega
        have hm : min (i + maxParallelUploads) n - i = n - i := by omega
        rw [hz, hm]
        simp [List.range']
    · rw [if_neg hin]
      have hni : n - i = 0 := by omega
      simp [hni]

theorem uploadBatches_flatten (n : Nat) : (uploadBatches n).flatten = List.range n := by
  rw [uploadBatches, batchesFrom_flatten n 0 n (by simp only [maxParallelUploads]; omega),
    Nat.sub_zero, List.range_eq_range']

theorem batchesFrom_get? (fuel : Nat) : ∀ b i n : Nat, n ≤ i + maxParallelUploads * fuel →
    (batchesFrom fuel i n).get? b =
      if i + maxParallelUploads * b < n then
        some (List.range' (i + maxParallelUploads * b)
          (min (i + maxParallelUploads * b + maxParallelUploads) n
            - (i + maxParallelUploads * b)))
      else none := by
  induction fuel with
  | zero =>
    intro b i n h
    simp only [maxParallelUploads, Nat.mul_zero, Nat.add_zero] at h
    rw [if_neg (by simp only [maxParallelUploads]; omega)]
    simp [batchesFrom]
  | succ fuel ih =>
    intro b i n h
    rw [batchesFrom]
    by_cases hin : i < n
    · rw [if_pos hin]
      cases b with
      | zero =>
        simp only [List.get?_cons_zero, Nat.mul_zero, Nat.add_zero]
        rw [if_pos hin]
      | succ b =>
        simp only [List.get?_cons_succ]
        rw [ih b (i + maxParallelUploads) n
          (by simp only [maxParallelUploads] at h ⊢; omega)]
        have harg : i + maxParallelUploads + maxParallelUploads * b
            = i + maxParallelUploads * (b + 1) := by
          simp only [maxParallelUploads]; omega
        rw [harg]
    · rw [if_neg hin]
      rw [if_neg (by simp only [maxParallelUploads]; omega)]
      simp

theorem mem_uploadBatches (n B : _) (hB : B ∈ uploadBatches n) :
    ∃ k, k < n ∧ B = List.range' k (min (k + maxParallelUploads) n - k) := by
  obtain ⟨b, hb⟩ := List.mem_iff_get?.mp hB
  rw [uploadBatches, batchesFrom_get? n b 0 n (by simp only [maxParallelUploads]; omega)] at hb
  by_cases hc : 0 + maxParallelUploads * b < n
  · rw [if_pos hc] at hb
    exact ⟨0 + maxParallelUploads * b, hc, (Option.some_inj.mp hb).symm⟩
  · rw [if_neg hc] at hb
    exact absurd hb (by simp)

theorem mem_uploadBatches_lt (n : Nat) {B : List Nat} {j : Nat}
    (hB : B ∈ uploadBatches n) (hj : j ∈ B) : j < n := by
  have : j ∈ (uploadBatches n).flatten := List.mem_flatten.mpr ⟨B, hB, hj⟩
  rw [uploadBatches_flatten] at this
  exact List.mem_range.mp this

/-- Claim C5: within a single file's chunked upload, parts are processed in
consecutive fixed-size batches of at most maxParallelUploads = 5: part j
belongs to batch floor(j/5); every batch is nonempty and holds at most 5
parts (so at most 5 part uploads are in flight at once, batch N+1 starting
only after batch N, per the sequential batch recursion of the model); the
batches in order cover exactly the part indices 0..numberOfParts-1; and for
12 parts the batch sizes are 5, 5, 2. -/
theorem c5_bounded_batching :
    (∀ n j : Nat, j < n →
      ∃ B, (uploadBatches n).get? (j / maxParallelUploads) = some B ∧ j ∈ B
        ∧ B.length ≤ maxParallelUploads)
    ∧ (∀ (n : Nat) (B : List Nat), B ∈ uploadBatches n →
        B ≠ [] ∧ B.length ≤ maxParallelUploads)
    ∧ (∀ n : Nat, (uploadBatches n).flatten = List.range n)
    ∧ (uploadBatches 12).map List.length = [5, 5, 2]
    ∧ maxParallelUploads = 5 := by
  refine ⟨?_, ?_, uploadBatches_flatten, by decide, rfl⟩
  · intro n j hj
    simp only [maxParallelUploads]
    refine ⟨List.range' (5 * (j / 5)) (min (5 * (j / 5) + 5) n - 5 * (j / 5)), ?_, ?_, ?_⟩
    · rw [uploadBatches, batchesFrom_get? n (j / 5) 0 n
        (by simp only [maxParallelUploads]; omega)]
      simp only [maxParallelUploads]
      rw [if_pos (by omega)]
      have h0 : 0 + 5 * (j / 5) = 5 * (j / 5) := by omega
      rw [h0]
    · rw [List.mem_range'_1]
      omega
    · rw [List.length_range']
      omega
  · intro n B hB
    obtain ⟨k, hk, rfl⟩ := mem_uploadBatches n _ hB
    constructor
    · rw [Ne, List.range'_eq_nil]
      simp only [maxParallelUploads]
      omega
    · rw [List.length_range']
      simp only [maxParallelUploads]
      omega

/-- Claim C5 witness: for 12 parts, part 7 sits in batch 7 / 5 = 1, batch 1
holds at most 5 parts. -/
theorem c5_bounded_batching_witness :
    ∃ B, (uploadBatches 12).get? (7 / maxParallelUploads) = some B ∧ 7 ∈ B
      ∧ B.length ≤ maxParallelUploads :=
  c5_bounded_batching.1 12 7 (by decide)

theorem chunks_flatten {α : Type} (content : List α) :
    ∀ k : Nat, (((List.range k).map (partChunk content)).flatten) = content.take (k * CHUNK_SIZE) := by
  intro k
  induction k with
  | zero => simp
  | succ k ih =>
    rw [List.range_succ, List.map_append, List.flatten_append, ih]
    simp only [List.map_cons, List.map_nil, List.flatten_cons, List.flatten_nil,
      List.append_nil]
    rw [partChunk, bufSlice]
    rw [Nat.succ_mul]
    by_cases hble : k * CHUNK_SIZE ≤ min (k * CHUNK_SIZE + CHUNK_SIZE) content.length
    · have h1 : (content.take (min (k * CHUNK_SIZE + CHUNK_SIZE) content.length)).take
          (k * CHUNK_SIZE) = content.take (k * CHUNK_SIZE) := by
        rw [List.take_take]
        congr 1
        omega
      rw [← h1, List.take_append_drop]
      rcases Nat.le_total (k * CHUNK_SIZE + CHUNK_SIZE) content.length with hc | hc
      · congr 1
        omega
      · have hmin : min (k * CHUNK_SIZE + CHUNK_SIZE) content.length = content.length := by
          omega
        rw [hmin, List.take_length, List.take_of_length_le hc]
    · have hlen : content.length < k * CHUNK_SIZE := by omega
      rw [List.drop_eq_nil_of_le (by rw [List.length_take]; omega)]
      rw [List.append_nil, List.take_of_length_le (by omega),
        List.take_of_length_le (by omega)]

theorem uploadedBodies_eq {α : Type} (content : List α) (n : Nat) :
    uploadedBodies content n = (List.range n).map (partChunk content) := by
  rw [uploadedBodies, uploadBatches_flatten]

/-- Claim C1: with part size CHUNK_SIZE = 9 * 1024 * 1024 and numberOfParts
equal to ceil(content.length / CHUNK_SIZE) (the value the upload contract
supplies; uploadMultipartFile itself receives it as an argument), the
chunked upload issues exactly that many part bodies, the 0-based part j
carries the byte range [j * CHUNK_SIZE, min((j+1) * CHUNK_SIZE,
content.length)), and the concatenation of all part bodies in part order
reconstructs the content exactly: no gaps and no overlaps. -/
theorem c1_chunk_partition {α : Type} (content : List α) (n : Nat)
    (hn : n = (content.length + CHUNK_SIZE - 1) / CHUNK_SIZE) :
    (uploadedBodies content n).length = n
    ∧ (∀ j, j < n → (uploadedBodies content n).get? j =
        some (bufSlice content (j * CHUNK_SIZE) (min ((j + 1) * CHUNK_SIZE) content.length)))
    ∧ (uploadedBodies content n).flatten = content := by
  refine ⟨?_, ?_, ?_⟩
  · rw [uploadedBodies_eq]
    simp
  · intro j hj
    rw [uploadedBodies_eq, List.get?_map, List.get?_range hj, Option.map_some']
    rw [partChunk]
    have hc : j * CHUNK_SIZE + CHUNK_SIZE = (j + 1) * CHUNK_SIZE := by ring
    rw [hc]
  · rw [uploadedBodies_eq, chunks_flatten]
    refine List.take_of_length_le ?_
    simp only [CHUNK_SIZE] at hn ⊢
    omega

/-- Claim C1 witness: a 3-byte content with numberOfParts = ceil(3/CHUNK_SIZE)
= 1 is reassembled exactly from its part bodies. -/
theorem c1_chunk_partition_witness :
    (uploadedBodies ([10, 20, 30] : List Nat) 1).flatten = [10, 20, 30] :=
  (c1_chunk_partition [10, 20, 30] 1 (by decide)).2.2

/-! ## Part upload and multipart run (src/cli.ts lines 79-157)

The PUT of each part is abstracted by an environment assigning every
0-based part index its HTTP response (ok flag and optional ETag header).
Out-of-order completion inside a batch is an arbitrary reordering
function ord on the batch's index list.
-/

/-- The observable part of a part-upload PUT response: response.ok and
the optional ETag header. -/
structure HttpResponse where
  ok : Bool
  etag : Option String
deriving DecidableEq

/-- One collected part acknowledgment { PartNumber, ETag } (src/cli.ts line 103). -/
structure PartResult where
  PartNumber : Nat
  ETag : String
deriving DecidableEq

/-- The errors uploadMultipartFile can throw before reaching finalize. -/
inductive UploadError where
  | missingUrl (partNumber : Nat)
  | partUploadFailed (partNumber : Nat)
  | missingEtag (partNumber : Nat)
deriving DecidableEq

/-- JavaScript falsiness of a possibly-absent string: null/undefined and the
empty string are falsy (used by the checks !etag and !signedUrl). -/
def strFalsy : Option String → Bool
  | none => true
  | some s => s == ""

/-- Remove one leading double-quote character if present. -/
def dropLeadingQuote : List Char → List Char
  | '"' :: rest => rest
  | l => l

/-- etag.replace(/^"|"$/g, '') (src/cli.ts line 102): strip one leading and
then one trailing double quote. -/
def cleanEtag (s : String) : String :=
  String.mk ((dropLeadingQuote (dropLeadingQuote s.toList).reverse).reverse)

/-- uploadPart (src/cli.ts lines 79-103) with the PUT response supplied as
input: a non-ok response throws "Failed to upload part"; a falsy ETag header
throws "Failed to retrieve ETag"; otherwise the quote-stripped ETag is
returned with the 1-based part number. -/
def uploadPart (response : HttpResponse) (partNumber : Nat) :
    Except UploadError PartResult :=
  if response.ok = false then
    .error (.partUploadFailed partNumber)
  else if strFalsy response.etag = true then
    .error (.missingEtag partNumber)
  else
    .ok ⟨partNumber, cleanEtag (response.etag.getD "")⟩

/-- Sequential collection of fallible results: the first error (in list
order, which for a batch is its completion order) aborts, as Promise.all
rejects with the first rejection. -/
def mapExcept {ε α β : Type} (f : α → Except ε β) : List α → Except ε (List β)
  | [] => .ok []
  | a :: as =>
    match f a with
    | .error e => .error e
    | .ok b =>
      match mapExcept f as with
      | .error e => .error e
      | .ok bs => .ok (b :: bs)

/-- One batch of uploadMultipartFile (src/cli.ts lines 118-135): building the
batch throws on the first falsy signed URL (checked in index order, before
any upload of this batch is awaited); otherwise each part of the batch is
uploaded and the results are pushed in completion order ord idxs. -/
def processBatch (env : Nat → HttpResponse) (signedUrls : List String)
    (ord : List Nat → List Nat) (idxs : List Nat) :
    Except UploadError (List PartResult) :=
  match idxs.find? (fun j => strFalsy (signedUrls.get? j)) with
  | some j => .error (.missingUrl (j + 1))
  | none => mapExcept (fun j => uploadPart (env j) (j + 1)) (ord idxs)

/-- The sequential batch loop with await Promise.all(batch) between batches
(src/cli.ts lines 117-136): batch N+1 is processed only after batch N fully
resolved; any batch error aborts the remaining batches. -/
def processBatches (env : Nat → HttpResponse) (signedUrls : List String)
    (ord : List Nat → List Nat) : List (List Nat) → Except UploadError (List PartResult)
  | [] => .ok []
  | b :: bs =>
    match processBatch env signedUrls ord b with
    | .error e => .error e
    | .ok ps =>
      match processBatches env signedUrls ord bs with
      | .error e => .error e
      | .ok qs => .ok (ps ++ qs)

instance : DecidableRel (fun a b : PartResult => a.PartNumber ≤ b.PartNumber) :=
  fun a b => Nat.decLe a.PartNumber b.PartNumber

instance : IsTotal PartResult (fun a b : PartResult => a.PartNumber ≤ b.PartNumber) :=
  ⟨fun a b => Nat.le_total a.PartNumber b.PartNumber⟩

instance : IsTrans PartResult (fun a b : PartResult => a.PartNumber ≤ b.PartNumber) :=
  ⟨fun _ _ _ h1 h2 => Nat.le_trans h1 h2⟩

/-- parts.sort((a, b) => a.PartNumber - b.PartNumber) (src/cli.ts line 138):
a sort of the collected results by ascending PartNumber. -/
def sortParts (parts : List PartResult) : List PartResult :=
  parts.insertionSort (fun a b => a.PartNumber ≤ b.PartNumber)

/-- s.split('/') on the underlying character list. -/
def splitSlash : List Char → List (List Char)
  | [] => [[]]
  | c :: cs =>
    match splitSlash cs with
    | [] => [[]]
    | g :: gs => if c = '/' then [] :: g :: gs else (c :: g) :: gs

/-- s3FilePath.split('/').pop() (src/cli.ts line 148). -/
def lastSegment (s : String) : String :=
  String.mk ((splitSlash s.toList).getLastD [])

/-- The JSON payload POSTed to the complete-multipart-upload finalize
endpoint (src/cli.ts lines 140-152). -/
structure FinalizeCall where
  bucketName : String
  uploadId : String
  parts : List PartResult
  s3FilePath : String
  fileName : String
deriving DecidableEq

/-- uploadMultipartFile (src/cli.ts lines 105-157): process all batches; on
success sort the collected parts by PartNumber and invoke finalize.  A
result .ok fc means the finalize endpoint is invoked with exactly the
payload fc; every .error aborts the upload before finalize is invoked. -/
def uploadMultipartFile (env : Nat → HttpResponse) (ord : List Nat → List Nat)
    (signedUrls : List String) (uploadId : String) (numberOfParts : Nat)
    (bucketName s3FilePath : String) : Except UploadError FinalizeCall :=
  match processBatches env signedUrls ord (uploadBatches numberOfParts) with
  | .error e => .error e
  | .ok parts =>
    .ok ⟨bucketName, uploadId, sortParts parts, s3FilePath, lastSegment s3FilePath⟩

theorem uploadPart_ok_inv {r : HttpResponse} {pn : Nat} {p : PartResult}
    (h : uploadPart r pn = .ok p) :
    r.ok = true ∧ ∃ e, r.etag = some e ∧ e ≠ "" ∧ p = ⟨pn, cleanEtag e⟩ := by
  unfold uploadPart at h
  split at h
  · exact absurd h (by simp)
  · next hok =>
    split at h
    · exact absurd h (by simp)
    · next hetag =>
      have hok2 : r.ok = true := by
        cases hr : r.ok
        · exact absurd hr hok
        · rfl
      cases hE : r.etag with
      | none =>
        rw [hE] at hetag
        exact absurd (show strFalsy none = true from rfl) hetag
      | some e =>
        refine ⟨hok2, e, rfl, ?_, ?_⟩
        · intro he
          rw [hE, he] at hetag
          simp [strFalsy] at hetag
        · rw [hE] at h
          simp only [Option.getD_some, Except.ok.injEq] at h
          exact h.symm

theorem uploadPart_ok_partNumber {r : HttpResponse} {pn : Nat} {p : PartResult}
    (h : uploadPart r pn = .ok p) : p.PartNumber = pn := by
  obtain ⟨-, e, -, -, rfl⟩ := uploadPart_ok_inv h
  rfl

theorem uploadPart_ok_of {r : HttpResponse} (pn : Nat) (hok : r.ok = true)
    (he : strFalsy r.etag = false) :
    uploadPart r pn = .ok ⟨pn, cleanEtag (r.etag.getD "")⟩ := by
  unfold uploadPart
  rw [if_neg (by simp [hok]), if_neg (by simp [he])]

theorem uploadPart_missing_etag {r : HttpResponse} (pn : Nat) (hok : r.ok = true)
    (he : r.etag = none) :
    uploadPart r pn = .error (.missingEtag pn) := by
  unfold uploadPart
  rw [if_neg (by simp [hok]), if_pos (by simp [he, strFalsy])]

theorem uploadPart_etag_none_not_ok {r : HttpResponse} {pn : Nat} {p : PartResult}
    (he : r.etag = none) (h : uploadPart r pn = .ok p) : False := by
  obtain ⟨-, e, hE, -, -⟩ := uploadPart_ok_inv h
  rw [he] at hE
  exact Option.noConfusion hE

theorem mapExcept_ok_mem {ε α β : Type} {f : α → Except ε β} :
    ∀ {l : List α} {res : List β}, mapExcept f l = .ok res →
      ∀ a ∈ l, ∃ b, f a = .ok b := by
  intro l
  induction l with
  | nil => intro res h a ha; exact absurd ha (List.not_mem_nil a)
  | cons x xs ih =>
    intro res h a ha
    simp only [mapExcept] at h
    cases hx : f x with
    | error e => rw [hx] at h; simp at h
    | ok b =>
      rw [hx] at h
      cases hxs : mapExcept f xs with
      | error e => rw [hxs] at h; simp at h
      | ok bs =>
        rcases List.mem_cons.mp ha with rfl | hmem
        · exact ⟨b, hx⟩
        · exact ih hxs a hmem

theorem mapExcept_ok_map {ε α β γ : Type} {f : α → Except ε β} {g : β → γ} {h : α → γ}
    (H : ∀ a b, f a = .ok b → g b = h a) :
    ∀ {l : List α} {res : List β}, mapExcept f l = .ok res → res.map g = l.map h := by
  intro l
  induction l with
  | nil =>
    intro res hres
    simp only [mapExcept, Except.ok.injEq] at hres
    subst hres
    rfl
  | cons x xs ih =>
    intro res hres
    simp only [mapExcept] at hres
    cases hx : f x with
    | error e => rw [hx] at hres; simp at hres
    | ok b =>
      rw [hx] at hres
      cases hxs : mapExcept f xs with
      | error e => rw [hxs] at hres; simp at hres
      | ok bs =>
        rw [hxs] at hres
        simp only [Except.ok.injEq] at hres
        subst hres
        simp only [List.map_cons]
        rw [H x b hx, ih hxs]

theorem mapExcept_ok_of {ε α β : Type} {f : α → Except ε β} :
    ∀ {l : List α}, (∀ a ∈ l, ∃ b, f a = .ok b) →
      ∃ res, mapExcept f l = .ok res := by
  intro l
  induction l with
  | nil => intro _; exact ⟨[], rfl⟩
  | cons x xs ih =>
    intro H
    obtain ⟨b, hb⟩ := H x (List.mem_cons_self x xs)
    obtain ⟨bs, hbs⟩ := ih (fun a ha => H a (List.mem_cons_of_mem x ha))
    refine ⟨b :: bs, ?_⟩
    simp only [mapExcept]
    rw [hb, hbs]

theorem processBatch_ok_mem {env : Nat → HttpResponse} {signedUrls : List String}
    {ord : List Nat → List Nat} {idxs : List Nat} {ps : List PartResult}
    (hperm : (ord idxs).Perm idxs)
    (h : processBatch env signedUrls ord idxs = .ok ps) :
    ∀ j ∈ idxs, ∃ p, uploadPart (env j) (j + 1) = .ok p := by
  intro j hj
  unfold processBatch at h
  cases hf : idxs.find? (fun j => strFalsy (signedUrls.get? j)) with
  | some k => rw [hf] at h; simp at h
  | none =>
    rw [hf] at h
    exact mapExcept_ok_mem h j (hperm.mem_iff.mpr hj)

theorem processBatch_ok_map {env : Nat → HttpResponse} {signedUrls : List String}
    {ord : List Nat → List Nat} {idxs : List Nat} {ps : List PartResult}
    (hperm : (ord idxs).Perm idxs)
    (h : processBatch env signedUrls ord idxs = .ok ps) :
    (ps.map PartResult.PartNumber).Perm (idxs.map (fun j => j + 1)) := by
  unfold processBatch at h
  cases hf : idxs.find? (fun j => strFalsy (signedUrls.get? j)) with
  | some k => rw [hf] at h; simp at h
  | none =>
    rw [hf] at h
    have hm : ps.map PartResult.PartNumber = (ord idxs).map (fun j => j + 1) :=
      mapExcept_ok_map (fun j p hp => uploadPart_ok_partNumber hp) h
    rw [hm]
    exact hperm.map (fun j => j + 1)

theorem processBatch_ok_of {env : Nat → HttpResponse} {signedUrls : List String}
    {ord : List Nat → List Nat} {idxs : List Nat}
    (hperm : (ord idxs).Perm idxs)
    (hurl : ∀ j ∈ idxs, strFalsy (signedUrls.get? j) = false)
    (henv : ∀ j ∈ idxs, (env j).ok = true ∧ strFalsy (env j).etag = false) :
    ∃ ps, processBatch env signedUrls ord idxs = .ok ps := by
  unfold processBatch
  have hfind : idxs.find? (fun j => strFalsy (signedUrls.get? j)) = none := by
    rw [List.find?_eq_none]
    intro x hx
    have hx2 := hurl x hx
    simp only [List.get?_eq_getElem?] at hx2
    simp [hx2]
  rw [hfind]
  refine mapExcept_ok_of ?_
  intro j hj
  have hj2 : j ∈ idxs := hperm.mem_iff.mp hj
  exact ⟨_, uploadPart_ok_of (j + 1) (henv j hj2).1 (henv j hj2).2⟩

theorem processBatches_ok_mem {env : Nat → HttpResponse} {signedUrls : List String}
    {ord : List Nat → List Nat} :
    ∀ {bs : List (List Nat)} {ps : List PartResult},
      processBatches env signedUrls ord bs = .ok ps →
      ∀ B ∈ bs, ∃ q, processBatch env signedUrls ord B = .ok q := by
  intro bs
  induction bs with
  | nil => intro ps h B hB; exact absurd hB (List.not_mem_nil B)
  | cons b bs ih =>
    intro ps h B hB
    simp only [processBatches] at h
    cases hb : processBatch env signedUrls ord b with
    | error e => rw [hb] at h; simp at h
    | ok q =>
      rw [hb] at h
      cases hbs : processBatches env signedUrls ord bs with
      | error e => rw [hbs] at h; simp at h
      | ok qs =>
        rcases List.mem_cons.mp hB with rfl | hmem
        · exact ⟨q, hb⟩
        · exact ih hbs B hmem

theorem processBatches_ok_map {env : Nat → HttpResponse} {signedUrls : List String}
    {ord : List Nat → List Nat} (hperm : ∀ l : List Nat, (ord l).Perm l) :
    ∀ {bs : List (List Nat)} {ps : List PartResult},
      processBatches env signedUrls ord bs = .ok ps →
      (ps.map PartResult.PartNumber).Perm ((bs.flatten).map (fun j => j + 1)) := by
  intro bs
  induction bs with
  | nil =>
    intro ps h
    simp only [processBatches, Except.ok.injEq] at h
    subst h
    simp
  | cons b bs ih =>
    intro ps h
    simp only [processBatches] at h
    cases hb : processBatch env signedUrls ord b with
    | error e => rw [hb] at h; simp at h
    | ok q =>
      rw [hb] at h
      cases hbs : processBatches env signedUrls ord bs with
      | error e => rw [hbs] at h; simp at h
      | ok qs =>
        rw [hbs] at h
        simp only [Except.ok.injEq] at h
        subst h
        rw [List.flatten_cons, List.map_append, List.map_append]
        exact (processBatch_ok_map (hperm b) hb).append (ih hbs)

theorem processBatches_ok_of {env : Nat → HttpResponse} {signedUrls : List String}
    {ord : List Nat → List Nat} :
    ∀ {bs : List (List Nat)},
      (∀ B ∈ bs, ∃ q, processBatch env signedUrls ord B = .ok q) →
      ∃ ps, processBatches env signedUrls ord bs = .ok ps := by
  intro bs
  induction bs with
  | nil => intro _; exact ⟨[], rfl⟩
  | cons b bs ih =>
    intro H
    obtain ⟨q, hq⟩ := H b (List.mem_cons_self b bs)
    obtain ⟨qs, hqs⟩ := ih (fun B hB => H B (List.mem_cons_of_mem b hB))
    refine ⟨q ++ qs, ?_⟩
    simp only [processBatches]
    rw [hq, hqs]

theorem uploadMultipartFile_ok_inv {env : Nat → HttpResponse} {ord : List Nat → List Nat}
    {signedUrls : List String} {uploadId : String} {numberOfParts : Nat}
    {bucketName s3FilePath : String} {fc : FinalizeCall}
    (h : uploadMultipartFile env ord signedUrls uploadId numberOfParts bucketName s3FilePath
      = .ok fc) :
    ∃ parts, processBatches env signedUrls ord (uploadBatches numberOfParts) = .ok parts
      ∧ fc = ⟨bucketName, uploadId, sortParts parts, s3FilePath, lastSegment s3FilePath⟩ := by
  unfold uploadMultipartFile at h
  cases hp : processBatches env signedUrls ord (uploadBatches numberOfParts) with
  | error e => rw [hp] at h; simp at h
  | ok parts =>
    rw [hp] at h
    simp only [Except.ok.injEq] at h
    exact ⟨parts, rfl, h.symm⟩

theorem sortParts_perm (parts : List PartResult) : (sortParts parts).Perm parts :=
  List.perm_insertionSort (fun a b : PartResult => a.PartNumber ≤ b.PartNumber) parts

theorem sortParts_sorted (parts : List PartResult) :
    List.Sorted (fun a b : PartResult => a.PartNumber ≤ b.PartNumber) (sortParts parts) :=
  List.sorted_insertionSort (fun a b : PartResult => a.PartNumber ≤ b.PartNumber) parts

theorem run_ok_parts {env : Nat → HttpResponse} {ord : List Nat → List Nat}
    {signedUrls : List String} {uploadId : String} {numberOfParts : Nat}
    {bucketName s3FilePath : String} {fc : FinalizeCall}
    (hperm : ∀ l : List Nat, (ord l).Perm l)
    (h : uploadMultipartFile env ord signedUrls uploadId numberOfParts bucketName s3FilePath
      = .ok fc) :
    fc.parts.map PartResult.PartNumber = (List.range numberOfParts).map (fun j => j + 1)
      ∧ fc.uploadId = uploadId := by
  obtain ⟨parts, hp, rfl⟩ := uploadMultipartFile_ok_inv h
  refine ⟨?_, rfl⟩
  have h1 : ((sortParts parts).map PartResult.PartNumber).Perm
      ((List.range numberOfParts).map (fun j => j + 1)) := by
    refine ((sortParts_perm parts).map PartResult.PartNumber).trans ?_
    have h0 := processBatches_ok_map hperm hp
    rwa [uploadBatches_flatten] at h0
  have h2 : List.Sorted (· ≤ ·) ((sortParts parts).map PartResult.PartNumber) :=
    List.Pairwise.map PartResult.PartNumber (fun a b hab => hab) (sortParts_sorted parts)
  have h3 : List.Sorted (· ≤ ·) ((List.range numberOfParts).map (fun j => j + 1)) := by
    refine List.Pairwise.map (fun j => j + 1) ?_ (List.pairwise_lt_range numberOfParts)
    intro a b hab
    show a + 1 ≤ b + 1
    omega
  exact List.eq_of_perm_of_sorted h1 h2 h3

/-- Claim C2: for every multipart upload that reaches finalize and every
completion order of the part uploads within each batch (ord is an arbitrary
permutation of each batch), the parts list submitted to the finalize
endpoint is sorted strictly ascending by PartNumber, contains exactly one
entry per part number in [1, numberOfParts], and is submitted together with
the upload session id. -/
theorem c2_finalize_sorted (env : Nat → HttpResponse) (ord : List Nat → List Nat)
    (signedUrls : List String) (uploadId : String) (numberOfParts : Nat)
    (bucketName s3FilePath : String) (fc : FinalizeCall)
    (hperm : ∀ l : List Nat, (ord l).Perm l)
    (hrun : uploadMultipartFile env ord signedUrls uploadId numberOfParts bucketName
      s3FilePath = .ok fc) :
    fc.parts.map PartResult.PartNumber = (List.range numberOfParts).map (fun j => j + 1)
    ∧ List.Chain' (· < ·) (fc.parts.map PartResult.PartNumber)
    ∧ fc.uploadId = uploadId := by
  obtain ⟨h1, h2⟩ := run_ok_parts hperm hrun
  refine ⟨h1, ?_, h2⟩
  rw [h1]
  refine List.Pairwise.chain' ?_
  refine List.Pairwise.map (fun j => j + 1) ?_ (List.pairwise_lt_range numberOfParts)
  intro a b hab
  show a + 1 < b + 1
  omega

/-- Claim C2 witness: three parts whose uploads complete in reverse order
(part 3 first) are still submitted to finalize as PartNumbers 1, 2, 3. -/
theorem c2_finalize_sorted_witness :
    (FinalizeCall.mk "bucket" "uid" [⟨1, "t"⟩, ⟨2, "t"⟩, ⟨3, "t"⟩] "a/b" "b").parts.map
      PartResult.PartNumber = (List.range 3).map (fun j => j + 1) :=
  (c2_finalize_sorted (fun _ => ⟨true, some "t"⟩) (fun l => l.reverse) ["u1", "u2", "u3"]
    "uid" 3 "bucket" "a/b" ⟨"bucket", "uid", [⟨1, "t"⟩, ⟨2, "t"⟩, ⟨3, "t"⟩], "a/b", "b"⟩
    (fun l => List.reverse_perm l) rfl).1

/-- Claim C4: a part-upload response lacking the ETag header makes that part
upload fail (for an ok response, with the missing-ETag error); a part upload
succeeds only if its response is ok and carries a non-empty ETag header,
whose single leading and trailing quote characters are stripped (cleanEtag)
before use; and a multipart upload in which some part's response lacks the
ETag header never reaches the finalize endpoint. -/
theorem c4_missing_etag_aborts :
    (∀ (response : HttpResponse) (partNumber : Nat),
      response.ok = true → response.etag = none →
      uploadPart response partNumber = .error (.missingEtag partNumber))
    ∧ (∀ (response : HttpResponse) (partNumber : Nat) (p : PartResult),
      uploadPart response partNumber = .ok p →
      response.ok = true ∧ ∃ e, response.etag = some e ∧ e ≠ ""
        ∧ p = ⟨partNumber, cleanEtag e⟩)
    ∧ (∀ (env : Nat → HttpResponse) (ord : List Nat → List Nat)
        (signedUrls : List String) (uploadId : String) (numberOfParts : Nat)
        (bucketName s3FilePath : String) (j : Nat),
      (∀ l : List Nat, (ord l).Perm l) → j < numberOfParts → (env j).etag = none →
      ∀ fc, uploadMultipartFile env ord signedUrls uploadId numberOfParts bucketName
        s3FilePath ≠ .ok fc) := by
  refine ⟨?_, ?_, ?_⟩
  · exact fun r pn hok he => uploadPart_missing_etag pn hok he
  · exact fun r pn p h => uploadPart_ok_inv h
  · intro env ord signedUrls uploadId numberOfParts bucketName s3FilePath j hperm hj
      hnone fc hok
    obtain ⟨parts, hp, -⟩ := uploadMultipartFile_ok_inv hok
    have hjmem : j ∈ (uploadBatches numberOfParts).flatten := by
      rw [uploadBatches_flatten]
      exact List.mem_range.mpr hj
    obtain ⟨B, hB, hjB⟩ := List.mem_flatten.mp hjmem
    obtain ⟨q, hq⟩ := processBatches_ok_mem hp B hB
    obtain ⟨p, hpart⟩ := processBatch_ok_mem (hperm B) hq j hjB
    exact uploadPart_etag_none_not_ok hnone hpart

/-- Claim C4 witness: a single-part upload whose PUT response is ok but has
no ETag header fails with the missing-ETag error and never produces a
finalize call. -/
theorem c4_missing_etag_aborts_witness :
    uploadPart ⟨true, none⟩ 1 = .error (.missingEtag 1)
    ∧ uploadMultipartFile (fun _ => ⟨true, none⟩) (fun l => l) ["u1"] "uid" 1 "bucket"
        "path" ≠ .ok ⟨"bucket", "uid", [⟨1, "t"⟩], "path", "path"⟩ :=
  ⟨c4_missing_etag_aborts.1 ⟨true, none⟩ 1 rfl rfl,
   c4_missing_etag_aborts.2.2 (fun _ => ⟨true, none⟩) (fun l => l) ["u1"] "uid" 1
     "bucket" "path" 0 (fun l => List.Perm.refl l) (by decide) rfl
     ⟨"bucket", "uid", [⟨1, "t"⟩], "path", "path"⟩⟩

/-- Claim C10: uploadMultipartFile never validates numberOfParts against the
content length: with responsive part uploads it always reaches finalize with
exactly one PartResult per part number in [1, numberOfParts]; the bytes it
uploads are exactly the first numberOfParts * CHUNK_SIZE bytes, so for
numberOfParts below ceil(length / CHUNK_SIZE) the tail bytes are silently
never uploaded, while every part index at or beyond ceil(length / CHUNK_SIZE)
carries a zero-length byte range. -/
theorem c10_part_count_unvalidated {α : Type} (content : List α)
    (env : Nat → HttpResponse) (ord : List Nat → List Nat) (signedUrls : List String)
    (uploadId : String) (numberOfParts : Nat) (bucketName s3FilePath : String)
    (hperm : ∀ l : List Nat, (ord l).Perm l)
    (henv : ∀ j, j < numberOfParts → (env j).ok = true ∧ strFalsy (env j).etag = false)
    (hurl : ∀ j, j < numberOfParts → strFalsy (signedUrls.get? j) = false) :
    (∃ fc, uploadMultipartFile env ord signedUrls uploadId numberOfParts bucketName
        s3FilePath = .ok fc
      ∧ fc.parts.map PartResult.PartNumber
          = (List.range numberOfParts).map (fun j => j + 1))
    ∧ (uploadedBodies content numberOfParts).flatten
        = content.take (numberOfParts * CHUNK_SIZE)
    ∧ (numberOfParts < (content.length + CHUNK_SIZE - 1) / CHUNK_SIZE →
        (uploadedBodies content numberOfParts).flatten ≠ content)
    ∧ (∀ j, (content.length + CHUNK_SIZE - 1) / CHUNK_SIZE ≤ j →
        partChunk content j = []) := by
  refine ⟨?_, ?_, ?_, ?_⟩
  · have hbatch : ∀ B ∈ uploadBatches numberOfParts,
        ∃ q, processBatch env signedUrls ord B = .ok q := by
      intro B hB
      refine processBatch_ok_of (hperm B) ?_ ?_
      · intro j hj
        exact hurl j (mem_uploadBatches_lt numberOfParts hB hj)
      · intro j hj
        exact henv j (mem_uploadBatches_lt numberOfParts hB hj)
    obtain ⟨parts, hp⟩ := processBatches_ok_of hbatch
    have hrun : uploadMultipartFile env ord signedUrls uploadId numberOfParts bucketName
        s3FilePath = .ok ⟨bucketName, uploadId, sortParts parts, s3FilePath,
          lastSegment s3FilePath⟩ := by
      unfold uploadMultipartFile
      rw [hp]
    exact ⟨_, hrun, (run_ok_parts hperm hrun).1⟩
  · rw [uploadedBodies_eq, chunks_flatten]
  · intro hlt heq
    have hlen := congrArg List.length heq
    rw [uploadedBodies_eq, chunks_flatten, List.length_take] at hlen
    simp only [CHUNK_SIZE] at hlen hlt
    omega
  · intro j hj
    rw [partChunk, bufSlice]
    apply List.drop_eq_nil_of_le
    rw [List.length_take]
    simp only [CHUNK_SIZE] at hj ⊢
    omega

/-- Claim C10 witness: with numberOfParts = 0 and a 3-byte content (so
numberOfParts < ceil(length / CHUNK_SIZE) = 1), the upload uploads no bytes
at all and yet reaches finalize with an empty parts list. -/
theorem c10_part_count_unvalidated_witness :
    uploadMultipartFile (fun _ => ⟨true, some "t"⟩) (fun l => l) [] "uid" 0 "bucket" "p/q"
        = .ok ⟨"bucket", "uid", [], "p/q", "q"⟩
    ∧ (uploadedBodies ([10, 20, 30] : List Nat) 0).flatten ≠ [10, 20, 30] := by
  have h := c10_part_count_unvalidated ([10, 20, 30] : List Nat)
    (fun _ => ⟨true, some "t"⟩) (fun l => l) [] "uid" 0 "bucket" "p/q"
    (fun l => List.Perm.refl l) (fun j hj => absurd hj (Nat.not_lt_zero j))
    (fun j hj => absurd hj (Nat.not_lt_zero j))
  exact ⟨rfl, h.2.2.1 (by decide)⟩

/-! ## Endpoint readiness prober (src/sandbox/cpu-sandbox.ts lines 70-92) -/

/-- Outcome of one probe attempt's resolve-then-fetch sequence: a response
with its status code, or any thrown resolution/network failure. -/
inductive ProbeOutcome where
  | response (status : Nat)
  | failure
deriving DecidableEq

/-- The error thrown after the attempts are exhausted:
BuildfunctionsError("Endpoint not ready after N attempts", 'NETWORK_ERROR'),
carrying the attempt count. -/
inductive ProbeError where
  | networkError (attempts : Nat)
deriving DecidableEq

/-- The acceptance test of one attempt (src/cpu-sandbox.ts line 84): a
status in [200, 500) is ready; any status ≥ 500 and any thrown
resolution/network failure is not ready and is only counted, not
surfaced. -/
def attemptReady : ProbeOutcome → Bool
  | .response status => decide (200 ≤ status) && decide (status < 500)
  | .failure => false

/-- The attempt loop of waitForEndpoint (src/cpu-sandbox.ts lines 76-90),
returning the number of attempts consumed on success.  The fuel argument
only bounds the iteration count; waitForEndpoint passes maxAttempts + 1,
which is never exhausted because the loop exits at
attempt = maxAttempts + 1. -/
def waitLoop (env : Nat → ProbeOutcome) : Nat → Nat → Nat → Except ProbeError Nat
  | 0, _, maxAttempts => .error (.networkError maxAttempts)
  | fuel + 1, attempt, maxAttempts =>
    if attempt ≤ maxAttempts then
      if attemptReady (env attempt) then .ok attempt
      else waitLoop env fuel (attempt + 1) maxAttempts
    else .error (.networkError maxAttempts)

/-- waitForEndpoint (src/cpu-sandbox.ts lines 70-92) with its defaults
maxAttempts = 60 and delayMs = 500 (the fixed sleep between attempts; time
is not modelled, so delayMs is carried but has no observable effect). -/
def waitForEndpoint (env : Nat → ProbeOutcome) (maxAttempts : Nat := 60)
    (delayMs : Nat := 500) : Except ProbeError Nat :=
  waitLoop env (maxAttempts + 1) 1 maxAttempts

theorem waitLoop_ready (env : Nat → ProbeOutcome) :
    ∀ fuel attempt maxAttempts k : Nat, attempt ≤ k → k ≤ maxAttempts →
      k < attempt + fuel → attemptReady (env k) = true →
      (∀ i, attempt ≤ i → i < k → attemptReady (env i) = false) →
      waitLoop env fuel attempt maxAttempts = .ok k := by
  intro fuel
  induction fuel with
  | zero =>
    intro attempt maxAttempts k h1 h2 h3 hk hlt
    exact absurd h3 (by omega)
  | succ fuel ih =>
    intro attempt maxAttempts k h1 h2 h3 hk hlt
    rw [waitLoop]
    rw [if_pos (show attempt ≤ maxAttempts by omega)]
    by_cases heq : attempt = k
    · subst heq
      rw [if_pos hk]
    · have hfalse := hlt attempt (Nat.le_refl attempt) (by omega)
      rw [if_neg (by simp [hfalse])]
      exact ih (attempt + 1) maxAttempts k (by omega) h2 (by omega) hk
        (fun i hi1 hi2 => hlt i (by omega) hi2)

theorem waitLoop_exhausted (env : Nat → ProbeOutcome) :
    ∀ fuel attempt maxAttempts : Nat,
      (∀ i, attempt ≤ i → i ≤ maxAttempts → attemptReady (env i) = false) →
      waitLoop env fuel attempt maxAttempts = .error (.networkError maxAttempts) := by
  intro fuel
  induction fuel with
  | zero => intro attempt maxAttempts _; rfl
  | succ fuel ih =>
    intro attempt maxAttempts hall
    rw [waitLoop]
    by_cases hle : attempt ≤ maxAttempts
    · rw [if_pos hle, if_neg (by simp [hall attempt (Nat.le_refl attempt) hle])]
      exact ih (attempt + 1) maxAttempts (fun i h1 h2 => hall i (by omega) h2)
    · rw [if_neg hle]

/-- Claim C3: if the first ready resolve-then-fetch outcome (status in
[200, 500)) occurs at attempt k ≤ maxAttempts, waitForEndpoint returns
successfully after exactly k attempts; if every attempt yields status
≥ 500 or a resolution/network failure (never surfaced), it fails after
exactly maxAttempts attempts with the NETWORK_ERROR error carrying the
attempt count; the defaults are maxAttempts = 60 and delayMs = 500. -/
theorem c3_readiness_probe :
    (∀ (env : Nat → ProbeOutcome) (maxAttempts delayMs k : Nat),
      1 ≤ k → k ≤ maxAttempts → attemptReady (env k) = true →
      (∀ i, 1 ≤ i → i < k → attemptReady (env i) = false) →
      waitForEndpoint env maxAttempts delayMs = .ok k)
    ∧ (∀ (env : Nat → ProbeOutcome) (maxAttempts delayMs : Nat),
      (∀ i, 1 ≤ i → i ≤ maxAttempts → attemptReady (env i) = false) →
      waitForEndpoint env maxAttempts delayMs = .error (.networkError maxAttempts))
    ∧ (∀ status, 200 ≤ status → status < 500 → attemptReady (.response status) = true)
    ∧ (∀ status, 500 ≤ status → attemptReady (.response status) = false)
    ∧ attemptReady .failure = false
    ∧ (∀ env : Nat → ProbeOutcome, waitForEndpoint env = waitForEndpoint env 60 500) := by
  refine ⟨?_, ?_, ?_, ?_, rfl, fun env => rfl⟩
  · intro env maxAttempts delayMs k h1 h2 hk hlt
    exact waitLoop_ready env (maxAttempts + 1) 1 maxAttempts k h1 h2 (by omega) hk hlt
  · intro env maxAttempts delayMs hall
    exact waitLoop_exhausted env (maxAttempts + 1) 1 maxAttempts hall
  · intro status h1 h2
    simp [attemptReady]
    omega
  · intro status h
    simp [attemptReady]
    omega

/-- Claim C3 witness: with every fetch answering 503 and a ceiling of 3
attempts, the probe fails reporting 3 attempts; with a fetch that answers
200 on attempt 2 (and 503 before), the probe succeeds after exactly 2
attempts. -/
theorem c3_readiness_probe_witness :
    waitForEndpoint (fun _ => ProbeOutcome.response 503) 3 10
        = .error (.networkError 3)
    ∧ waitForEndpoint (fun attempt => if attempt = 2 then ProbeOutcome.response 200
        else ProbeOutcome.response 503) 3 10 = .ok 2 :=
  ⟨c3_readiness_probe.2.1 (fun _ => ProbeOutcome.response 503) 3 10
      (fun i _ _ => rfl),
   c3_readiness_probe.1 (fun attempt => if attempt = 2 then ProbeOutcome.response 200
        else ProbeOutcome.response 503) 3 10 2 (by omega) (by omega) (by decide)
      (by
        intro i h1 h2
        have hi : i = 1 := by omega
        subst hi
        decide)⟩

/-! ## Authoritative resolver (src/sandbox/cpu-sandbox.ts lines 17-41) -/

/-- The hard-coded AWS Route53 authoritative nameserver IPs set once on the
process-wide awsResolver (src/cpu-sandbox.ts lines 17-27). -/
def awsNameservers : List String :=
  ["205.251.193.143", "205.251.198.254", "205.251.195.249", "205.251.198.95"]

/-- The answer of one resolve4 query against the authoritative nameservers:
the callback error case (err truthy or addresses absent), or an A-record
address list. -/
inductive DnsAnswer where
  | failure
  | addresses (addrs : List String)
deriving DecidableEq

/-- The rejection of resolveWithAWS: the underlying query error, or the
Error('No addresses') raised on an empty A-record answer. -/
inductive ResolutionError where
  | queryError
  | noAddresses
deriving DecidableEq

/-- resolveWithAWS (src/cpu-sandbox.ts lines 31-41) as a function of the
authoritative answer, its only input: every call re-queries awsResolver
(no cache), whose server list is the constant awsNameservers, never the
system resolver.  It rejects when the query errs or returns no A records
and otherwise resolves with addresses[0]. -/
def resolveWithAWS : DnsAnswer → Except ResolutionError String
  | .failure => .error .queryError
  | .addresses [] => .error .noAddresses
  | .addresses (a :: _) => .ok a

/-- Claim C8: the resolver returns exactly one IPv4 address, the first entry
of a non-empty A-record answer; it fails with a resolution error when the
query errs or no A records come back; and the nameserver list it queries is
the fixed hard-coded four-entry AWS Route53 list. -/
theorem c8_resolver_first_address :
    (∀ (a : String) (rest : List String),
      resolveWithAWS (.addresses (a :: rest)) = .ok a)
    ∧ resolveWithAWS (.addresses []) = .error .noAddresses
    ∧ resolveWithAWS .failure = .error .queryError
    ∧ awsNameservers
        = ["205.251.193.143", "205.251.198.254", "205.251.195.249", "205.251.198.95"]
    ∧ awsNameservers.length = 4 :=
  ⟨fun a rest => rfl, rfl, rfl, rfl, rfl⟩

/-! ## Model file uploader (src/cli.ts lines 33-47, 191-229) -/

/-- PresignedUrlInfo (src/cli.ts lines 42-47). -/
structure PresignedUrlInfo where
  signedUrl : List String
  uploadId : Option String
  numberOfParts : Option Nat
  s3FilePath : Option String
deriving DecidableEq

/-- FileMetadata (src/cli.ts lines 33-39). -/
structure FileMetadata where
  name : String
  size : Nat
  type : String
  webkitRelativePath : String
  localPath : String
deriving DecidableEq

/-- JavaScript x || fallback on an optional number (absence and 0 are
falsy): models urlInfo.numberOfParts || signedUrls.length. -/
def jsOrNat (v : Option Nat) (fallback : Nat) : Nat :=
  match v with
  | none => fallback
  | some k => if k = 0 then fallback else k

/-- JavaScript x || fallback on an optional string (absence and "" are
falsy): models urlInfo.s3FilePath || ''. -/
def jsOrStr (v : Option String) (fallback : String) : String :=
  match v with
  | none => fallback
  | some s => if s = "" then fallback else s

/-- What uploadModelFiles does with one file (src/cli.ts lines 199-224):
skip with a console.error when no target is mapped; otherwise read the
file's full content, push a multipart upload when signedUrls.length > 1
and uploadId is truthy, push a single-shot PUT when signedUrls.length === 1
and signedUrls[0] is truthy, and push nothing at all otherwise. -/
inductive FileAction (α : Type) where
  | skippedNoTarget
  | multipart (content : List α) (signedUrls : List String) (uploadId : String)
      (numberOfParts : Nat) (bucketName : String) (s3FilePath : String)
  | singleShot (content : List α) (url : String)
  | noUpload
deriving DecidableEq

/-- The per-file branch of uploadModelFiles (src/cli.ts lines 200-224); read
abstracts readFile(file.localPath). -/
def dispatchFile {α : Type} (read : String → List α) (bucketName : String)
    (urlInfoOpt : Option PresignedUrlInfo) (file : FileMetadata) : FileAction α :=
  match urlInfoOpt with
  | none => .skippedNoTarget
  | some urlInfo =>
    if 1 < urlInfo.signedUrl.length ∧ strFalsy urlInfo.uploadId = false then
      .multipart (read file.localPath) urlInfo.signedUrl (urlInfo.uploadId.getD "")
        (jsOrNat urlInfo.numberOfParts urlInfo.signedUrl.length) bucketName
        (jsOrStr urlInfo.s3FilePath "")
    else if urlInfo.signedUrl.length = 1 ∧ strFalsy (urlInfo.signedUrl.get? 0) = false then
      .singleShot (read file.localPath) (urlInfo.signedUrl.headD "")
    else .noUpload

/-- uploadModelFiles (src/cli.ts lines 191-229): per-file dispatch in file
order; the result records what was pushed (or skipped) for each file. -/
def uploadModelFiles {α : Type} (read : String → List α)
    (presignedUrls : String → Option PresignedUrlInfo) (bucketName : String)
    (files : List FileMetadata) : List (FileAction α) :=
  files.map (fun file => dispatchFile read bucketName
    (presignedUrls file.webkitRelativePath) file)

/-- Whether a file action pushed an upload promise. -/
def isDispatched {α : Type} : FileAction α → Bool
  | .multipart _ _ _ _ _ _ => true
  | .singleShot _ _ => true
  | .skippedNoTarget => false
  | .noUpload => false

/-- The contribution of one file action to await Promise.all(uploadPromises)
(src/cli.ts line 228): a pushed upload must resolve (per the outcome
environment); a file that pushed nothing cannot fail the aggregate. -/
def actionOk {α : Type} (outcome : FileAction α → Bool) (a : FileAction α) : Bool :=
  if isDispatched a = true then outcome a else true

/-- await Promise.all(uploadPromises): the aggregate call succeeds iff every
pushed upload resolves. -/
def aggregateOk {α : Type} (outcome : FileAction α → Bool)
    (actions : List (FileAction α)) : Bool :=
  actions.all (actionOk outcome)

/-- Claim C6: for a file whose relativePath maps to a target satisfying the
UploadTarget invariant (at least one destination URL, a truthy session id
when there are several destination URLs, a truthy first URL), the uploader
reads the file's full content and dispatches it to exactly one of two
paths: the chunked multipart upload iff destinationUrls has length > 1, and
the single-shot direct PUT iff it has length 1. -/
theorem c6_dispatch_two_paths {α : Type} (read : String → List α)
    (bucketName : String) (file : FileMetadata) (info : PresignedUrlInfo)
    (hlen : 1 ≤ info.signedUrl.length)
    (hinv : 1 < info.signedUrl.length → strFalsy info.uploadId = false)
    (hurl : strFalsy (info.signedUrl.get? 0) = false) :
    (1 < info.signedUrl.length →
      dispatchFile read bucketName (some info) file
        = .multipart (read file.localPath) info.signedUrl (info.uploadId.getD "")
            (jsOrNat info.numberOfParts info.signedUrl.length) bucketName
            (jsOrStr info.s3FilePath ""))
    ∧ (info.signedUrl.length = 1 →
      dispatchFile read bucketName (some info) file
        = .singleShot (read file.localPath) (info.signedUrl.headD ""))
    ∧ isDispatched (dispatchFile read bucketName (some info) file) = true := by
  refine ⟨?_, ?_, ?_⟩
  · intro hgt
    simp only [dispatchFile]
    rw [if_pos ⟨hgt, hinv hgt⟩]
  · intro heq
    simp only [dispatchFile]
    rw [if_neg (by rintro ⟨h1, -⟩; omega), if_pos ⟨heq, hurl⟩]
  · rcases Nat.lt_or_ge 1 info.signedUrl.length with hgt | hle
    · simp only [dispatchFile]
      rw [if_pos ⟨hgt, hinv hgt⟩]
      rfl
    · have heq : info.signedUrl.length = 1 := by omega
      simp only [dispatchFile]
      rw [if_neg (by rintro ⟨h1, -⟩; omega), if_pos ⟨heq, hurl⟩]
      rfl

/-- Claim C6 witness: a target with two destination URLs and a session id
dispatches to the multipart path with the file's content; a target with one
destination URL dispatches to the single-shot path. -/
theorem c6_dispatch_two_paths_witness :
    dispatchFile (fun _ => ([7, 8] : List Nat)) "bucket"
        (some ⟨["u1", "u2"], some "sess", some 2, some "m/f"⟩)
        ⟨"f", 2, "application/octet-stream", "m/f", "/tmp/m/f"⟩
      = .multipart [7, 8] ["u1", "u2"] "sess" 2 "bucket" "m/f"
    ∧ dispatchFile (fun _ => ([7, 8] : List Nat)) "bucket"
        (some ⟨["u1"], none, none, none⟩)
        ⟨"f", 2, "application/octet-stream", "m/f", "/tmp/m/f"⟩
      = .singleShot [7, 8] "u1" :=
  ⟨(c6_dispatch_two_paths (fun _ => ([7, 8] : List Nat)) "bucket"
      ⟨"f", 2, "application/octet-stream", "m/f", "/tmp/m/f"⟩
      ⟨["u1", "u2"], some "sess", some 2, some "m/f"⟩
      (by decide) (fun _ => by decide) (by decide)).1 (by decide),
   (c6_dispatch_two_paths (fun _ => ([7, 8] : List Nat)) "bucket"
      ⟨"f", 2, "application/octet-stream", "m/f", "/tmp/m/f"⟩
      ⟨["u1"], none, none, none⟩
      (by decide) (fun h => absurd h (by decide)) (by decide)).2.1 (by decide)⟩

/-- Claim C7: a descriptor whose relativePath has no mapping entry is logged
and skipped without error: the remaining files' dispatches are unchanged,
the skipped file cannot fail the aggregate (which equals the aggregate of
the other files alone), the aggregate succeeds when every dispatched upload
resolves, and a failing dispatched upload fails the aggregate while leaving
every sibling dispatch in place (the action list does not depend on the
outcomes: nothing is rolled back). -/
theorem c7_missing_target_skipped {α : Type} (read : String → List α)
    (presignedUrls : String → Option PresignedUrlInfo) (bucketName : String)
    (outcome : FileAction α → Bool) (l1 l2 : List FileMetadata) (f : FileMetadata)
    (hmiss : presignedUrls f.webkitRelativePath = none) :
    dispatchFile read bucketName (presignedUrls f.webkitRelativePath) f = .skippedNoTarget
    ∧ uploadModelFiles read presignedUrls bucketName (l1 ++ f :: l2)
        = uploadModelFiles read presignedUrls bucketName l1
          ++ FileAction.skippedNoTarget :: uploadModelFiles read presignedUrls bucketName l2
    ∧ aggregateOk outcome (uploadModelFiles read presignedUrls bucketName (l1 ++ f :: l2))
        = aggregateOk outcome (uploadModelFiles read presignedUrls bucketName (l1 ++ l2))
    ∧ ((∀ a ∈ uploadModelFiles read presignedUrls bucketName (l1 ++ f :: l2),
          isDispatched a = true → outcome a = true) →
        aggregateOk outcome (uploadModelFiles read presignedUrls bucketName (l1 ++ f :: l2))
          = true)
    ∧ (∀ a ∈ uploadModelFiles read presignedUrls bucketName (l1 ++ f :: l2),
        isDispatched a = true → outcome a = false →
        aggregateOk outcome (uploadModelFiles read presignedUrls bucketName (l1 ++ f :: l2))
          = false) := by
  have hdisp : dispatchFile read bucketName (presignedUrls f.webkitRelativePath) f
      = .skippedNoTarget := by
    rw [hmiss]
    rfl
  refine ⟨hdisp, ?_, ?_, ?_, ?_⟩
  · unfold uploadModelFiles
    rw [List.map_append, List.map_cons, hdisp]
  · unfold aggregateOk uploadModelFiles
    rw [List.map_append, List.map_cons, hdisp, List.map_append,
      List.all_append, List.all_cons, List.all_append]
    simp [actionOk, isDispatched]
  · intro H
    rw [aggregateOk, List.all_eq_true]
    intro a ha
    rw [actionOk]
    by_cases hd : isDispatched a = true
    · rw [if_pos hd]
      exact H a ha hd
    · rw [if_neg hd]
  · intro a ha hd hout
    rw [aggregateOk]
    refine List.all_eq_false.mpr ⟨a, ha, ?_⟩
    simp [actionOk, hd, hout]

/-- Claim C7 witness: a single file with no mapping entry is skipped and the
aggregate equals the aggregate over no files at all (success). -/
theorem c7_missing_target_skipped_witness :
    dispatchFile (fun _ => ([] : List Nat)) "bucket"
        ((fun _ => (none : Option PresignedUrlInfo)) "m/x")
        ⟨"x", 0, "application/octet-stream", "m/x", "/tmp/m/x"⟩ = .skippedNoTarget
    ∧ aggregateOk (fun _ => true)
        (uploadModelFiles (fun _ => ([] : List Nat)) (fun _ => none) "bucket"
          ([] ++ ⟨"x", 0, "application/octet-stream", "m/x", "/tmp/m/x"⟩ :: []))
        = aggregateOk (fun _ => true)
          (uploadModelFiles (fun _ => ([] : List Nat)) (fun _ => none) "bucket"
            ([] ++ [])) := by
  have h := c7_missing_target_skipped (fun _ => ([] : List Nat)) (fun _ => none) "bucket"
    (fun _ => true) [] [] ⟨"x", 0, "application/octet-stream", "m/x", "/tmp/m/x"⟩ rfl
  exact ⟨h.1, h.2.2.1⟩

/-! ## Directory walker (src/cli.ts lines 160-189)

A directory tree: readdirSync with withFileTypes yields entries that are
either regular files (with a statSync size) or directories to recurse
into.  A path is its list of components; basename is the last component
and path.join / path.relative are component concatenation. -/

mutual
inductive FSTree where
  | file (name : String) (size : Nat)
  | dir (name : String) (entries : FSTreeList)
inductive FSTreeList where
  | nil
  | cons (t : FSTree) (ts : FSTreeList)
end

mutual
/-- walkDir's handling of one entry (src/cli.ts lines 167-182): a regular
file pushes a FileMetadata with type 'application/octet-stream',
webkitRelativePath = rootDirName + "/" + relative(dirPath, fullPath) and
localPath = fullPath; a directory recurses with its name appended to the
relative prefix. -/
def walkTree (rootDirName : String) (dirPath pref : List String) :
    FSTree → List FileMetadata
  | .file n s =>
    [⟨n, s, "application/octet-stream",
      String.intercalate "/" (rootDirName :: (pref ++ [n])),
      String.intercalate "/" (dirPath ++ pref ++ [n])⟩]
  | .dir d es => walkTreeList rootDirName dirPath (pref ++ [d]) es
/-- walkDir's entry loop (src/cli.ts lines 164-183), in readdir order. -/
def walkTreeList (rootDirName : String) (dirPath pref : List String) :
    FSTreeList → List FileMetadata
  | .nil => []
  | .cons t ts =>
    walkTree rootDirName dirPath pref t ++ walkTreeList rootDirName dirPath pref ts
end

/-- getFilesInDirectory (src/cli.ts lines 160-189) on the directory at path
dirPath (as components) holding the given entries:
rootDirName = basename(dirPath). -/
def getFilesInDirectory (dirPath : List String) (entries : FSTreeList) :
    List FileMetadata :=
  walkTreeList (dirPath.getLastD "") dirPath [] entries

mutual
/-- Stated from the spec's words, for comparison with the walker: every
regular file of the tree with its path components relative to the root
(file name included) and its byte size. -/
def specRegularFiles : FSTree → List (List String × Nat)
  | .file n s => [([n], s)]
  | .dir d es => (specRegularFilesList es).map (fun p => (d :: p.1, p.2))
/-- Relative paths and sizes of the regular files under a list of entries. -/
def specRegularFilesList : FSTreeList → List (List String × Nat)
  | .nil => []
  | .cons t ts => specRegularFiles t ++ specRegularFilesList ts
end

theorem walkTreeList_pairs (rootDirName : String) (dirPath : List String) :
    ∀ l : FSTreeList, ∀ pref : List String,
      (walkTreeList rootDirName dirPath pref l).map
          (fun fm => (fm.webkitRelativePath, fm.size))
        = (specRegularFilesList l).map
            (fun p => (String.intercalate "/" (rootDirName :: (pref ++ p.1)), p.2)) :=
  @FSTreeList.rec
    (fun t => ∀ pref : List String,
      (walkTree rootDirName dirPath pref t).map
          (fun fm => (fm.webkitRelativePath, fm.size))
        = (specRegularFiles t).map
            (fun p => (String.intercalate "/" (rootDirName :: (pref ++ p.1)), p.2)))
    (fun l => ∀ pref : List String,
      (walkTreeList rootDirName dirPath pref l).map
          (fun fm => (fm.webkitRelativePath, fm.size))
        = (specRegularFilesList l).map
            (fun p => (String.intercalate "/" (rootDirName :: (pref ++ p.1)), p.2)))
    (by intro n s pref; rfl)
    (by
      intro d es ih pref
      simp only [walkTree, specRegularFiles]
      rw [ih (pref ++ [d]), List.map_map]
      refine List.map_congr_left ?_
      intro p hp
      simp only [Function.comp]
      rw [List.append_assoc]
      rfl)
    (by intro pref; rfl)
    (by
      intro t ts ih1 ih2 pref
      simp only [walkTreeList, specRegularFilesList]
      rw [List.map_append, List.map_append, ih1 pref, ih2 pref])

/-- Claim C9: the Directory Walker emits exactly one descriptor per regular
file found by the recursive traversal, in traversal order, whose
relativePath is basename(dirPath) + "/" + (the file's path relative to
dirPath) and whose size is the file's byte size; in particular walking
root/{a.txt, sub/b.bin} yields relativePaths root/a.txt and
root/sub/b.bin. -/
theorem c9_directory_walker :
    (∀ (dirPath : List String) (entries : FSTreeList),
      (getFilesInDirectory dirPath entries).map
          (fun fm => (fm.webkitRelativePath, fm.size))
        = (specRegularFilesList entries).map
            (fun p => (String.intercalate "/" ((dirPath.getLastD "") :: p.1), p.2)))
    ∧ (getFilesInDirectory ["root"]
        (.cons (.file "a.txt" 3)
          (.cons (.dir "sub" (.cons (.file "b.bin" 5) .nil)) .nil))).map
        (fun fm => (fm.webkitRelativePath, fm.size))
      = [("root/a.txt", 3), ("root/sub/b.bin", 5)] := by
  constructor
  · intro dirPath entries
    have h := walkTreeList_pairs (dirPath.getLastD "") dirPath entries []
    simpa [getFilesInDirectory] using h
  · decide
